import Mathlib

/-!
Verification of the cached GitHub-data fetch-and-render pipeline of
`src/js/script.js` (the primary, caching variant, lines 1-657).

The JavaScript is shallowly embedded: JavaScript values are modelled by the
inductive type `JsVal` (including `undefined`, which `JSON.parse` never
produces but property access does), `localStorage` by an association list
from key strings to the parse result of the stored string, and code that can
throw a `TypeError` (property access on `null`/`undefined`, calling a string
method on a non-string) by computations in `Except Unit`.  Times are `Int`
milliseconds standing for `Date.now()`.
-/

set_option autoImplicit false

namespace DieSite

/-- Model of a JavaScript value.  `undef` is JavaScript `undefined`; the other
constructors are the JSON values.  Object fields keep their insertion order,
as JavaScript objects do. -/
inductive JsVal where
  | undef
  | jnull
  | bool (b : Bool)
  | num (n : Int)
  | str (s : String)
  | arr (elems : List JsVal)
  | obj (fields : List (String × JsVal))

/-- JavaScript truthiness of a value (`if (v)`).  `undefined`, `null`,
`false`, `0` and `""` are falsy; every object and array is truthy.
(`NaN` is not representable in the `Int` model.) -/
def jsTruthy : JsVal → Bool
  | .undef => false
  | .jnull => false
  | .bool b => b
  | .num n => n != 0
  | .str s => s != ""
  | .arr _ => true
  | .obj _ => true

/-- JavaScript property access `v.k`.  Throws a `TypeError` on `null` and
`undefined`; yields `undefined` for a missing field; on primitives and
arrays the properties accessed by this program are absent, so the access
yields `undefined`. -/
def getProp : JsVal → String → Except Unit JsVal
  | .undef, _ => .error ()
  | .jnull, _ => .error ()
  | .obj fields, k => .ok ((((fields.find? (fun kv => kv.1 == k))).map (fun kv => kv.2)).getD .undef)
  | _, _ => .ok .undef

mutual
/-- A value is a JSON value when it contains no `undefined` anywhere
(`JSON.stringify` followed by `JSON.parse` is the identity on these). -/
def isJsonVal : JsVal → Bool
  | .undef => false
  | .jnull => true
  | .bool _ => true
  | .num _ => true
  | .str _ => true
  | .arr elems => isJsonList elems
  | .obj fields => isJsonFields fields

/-- All values of a list are JSON values. -/
def isJsonList : List JsVal → Bool
  | [] => true
  | v :: vs => isJsonVal v && isJsonList vs

/-- All field values of an object are JSON values. -/
def isJsonFields : List (String × JsVal) → Bool
  | [] => true
  | kv :: kvs => isJsonVal kv.2 && isJsonFields kvs
end

/-- Model of `localStorage`: an association list from keys to the result of
`JSON.parse` on the stored string (`none` when the stored string is not valid
JSON, so that `JSON.parse` throws).  Real `localStorage` has no duplicate
keys; lookups return the first matching entry. -/
abbrev Store := List (String × Option JsVal)

/-- `localStorage.getItem k` (as parsed): the first entry with key `k`. -/
def lookupStore (s : Store) (k : String) : Option (Option JsVal) :=
  (s.find? (fun kv => kv.1 == k)).map (fun kv => kv.2)

/-- `localStorage.removeItem k`: drop every entry with key `k`. -/
def removeKeyStore (s : Store) (k : String) : Store :=
  s.filter (fun kv => kv.1 != k)

/-- `localStorage.setItem k v`: overwrite the entry for key `k`. -/
def setStore (s : Store) (k : String) (v : Option JsVal) : Store :=
  (k, v) :: removeKeyStore s k

/-- `CONFIG.CACHE_DURATION = 30 * 60 * 1000` (script.js line 15). -/
def CACHE_DURATION : Int := 30 * 60 * 1000

/-- JavaScript `s.startsWith(p)`, on the code-point lists of the strings. -/
def strStartsWith (s p : String) : Bool :=
  p.data.isPrefixOf s.data

/-- JavaScript-style suffix test, on the code-point lists of the strings. -/
def strEndsWith (s p : String) : Bool :=
  p.data.isSuffixOf s.data

namespace CacheManager

/-- `CacheManager.get` (script.js lines 96-109).  Reads
`localStorage.getItem('die_' + key)`; returns `null` when the item is absent
or fails to parse or the entry is stale (deleting a stale entry); otherwise
returns `parsed.data`.  The comparison `Date.now() - parsed.timestamp >
CACHE_DURATION` is `false` when `parsed.timestamp` is not a number (`NaN`
comparison); a thrown property access (parsed value `null`) is caught and
yields `null`.  Entries written by `set` always carry a numeric timestamp.
Returns the returned value together with the updated store. -/
def get (now : Int) (store : Store) (key : String) : JsVal × Store :=
  match lookupStore store ("die_" ++ key) with
  | none => (.jnull, store)
  | some none => (.jnull, store)
  | some (some parsed) =>
    match getProp parsed "timestamp" with
    | .error _ => (.jnull, store)
    | .ok (.num t) =>
      if now - t > CACHE_DURATION then
        (.jnull, removeKeyStore store ("die_" ++ key))
      else
        match getProp parsed "data" with
        | .ok d => (d, store)
        | .error _ => (.jnull, store)
    | .ok _ =>
      match getProp parsed "data" with
      | .ok d => (d, store)
      | .error _ => (.jnull, store)

/-- `CacheManager.set` (script.js lines 111-120): stores
`JSON.stringify({data, timestamp: Date.now()})` under `'die_' + key`.
The quota-failure catch (degrading to a no-op) is an environment failure and
is not modelled. -/
def set (now : Int) (store : Store) (key : String) (data : JsVal) : Store :=
  setStore store ("die_" ++ key)
    (some (.obj [("data", data), ("timestamp", .num now)]))

/-- `CacheManager.clearOld` (script.js lines 122-136): for every key starting
with `'die_'`, parse the stored string and remove the entry when
`Date.now() - parsed.timestamp > 24 * 60 * 60 * 1000`; parse failures and
thrown property accesses are caught and the entry is skipped.  `Object.keys`
snapshots the keys before iterating, so the per-key decisions are
independent and the whole pass is a filter. -/
def clearOld (now : Int) (store : Store) : Store :=
  store.filter (fun kv =>
    if strStartsWith kv.1 "die_" then
      match kv.2 with
      | none => true
      | some parsed =>
        match getProp parsed "timestamp" with
        | .error _ => true
        | .ok (.num t) => if now - t > 24 * 60 * 60 * 1000 then false else true
        | .ok _ => true
    else true)

end CacheManager

/-- `(num / d).toFixed(1)` for a natural `num` and decimal divisor `d`:
round half up to one decimal and render as `"i.f"`. -/
def toFixed1 (num d : Nat) : String :=
  let scaled := (num * 10 + d / 2) / d
  toString (scaled / 10) ++ "." ++ toString (scaled % 10)

/-- `.replace(/\.0$/, '')`: strip a trailing `".0"`. -/
def stripDotZero (s : String) : String :=
  if strEndsWith s ".0" then String.mk (s.data.take (s.data.length - 2)) else s

/-- `Utils.formatNumber` (script.js lines 46-54). -/
def formatNumber (num : Nat) : String :=
  if num ≥ 1000000 then stripDotZero (toFixed1 num 1000000) ++ "M"
  else if num ≥ 1000 then stripDotZero (toFixed1 num 1000) ++ "k"
  else toString num

/-- A numeric render target: its displayed text and the number of fade
transitions started on it so far. -/
structure El where
  textContent : String
  transitions : Nat

/-- `GitHubAPI.updateEl` (script.js lines 424-436) on a present element:
when the displayed text already equals the new value, return without touching
the element; otherwise start the fade transition and (after the 150 ms
timeout) swap the text.  Modelled at the instant the timeout has completed. -/
def updateEl (el : El) (value : String) : El :=
  if el.textContent = value then el
  else { textContent := value, transitions := el.transitions + 1 }

/-- One downloadable release asset; `download_count` is `none` when the
counter field is missing. -/
structure Asset where
  download_count : Option Int

/-- One release; `assets` is `none` when the release has no `assets` field
(`release.assets || []` substitutes the empty list). -/
structure Release where
  assets : Option (List Asset)

/-- One page of the release listing as consumed by the loop: the parsed body
and whether the `Link` response header is present and contains `rel="next"`
(`linkHeader && linkHeader.includes(...)`). -/
structure PageResp where
  releases : List Release
  hasNext : Bool

/-- Outcome of the pagination loop: the accumulated total and how many pages
were fetched. -/
structure AggResult where
  total : Int
  pagesFetched : Nat

/-- `total += asset.download_count || 0` summed over a release's assets. -/
def assetSum (assets : List Asset) : Int :=
  (assets.map (fun a => a.download_count.getD 0)).sum

/-- The inner double loop of `loadTotalDownloads` over one page:
`for (const release of releases) for (const asset of (release.assets || []))`. -/
def pageSum (releases : List Release) : Int :=
  (releases.map (fun r => assetSum (r.assets.getD []))).sum

/-- The `while (hasMore)` pagination loop of `GitHubAPI.loadTotalDownloads`
(script.js lines 211-230).  A server answer of `.error` is a failed fetch,
a non-2xx status or an unparsable body; it throws out of the loop to the
surrounding catch.  The loop body: stop on an empty page; otherwise add the
page's asset counters, read the next-page indicator, increment `page`, and
stop when `page > 20` (the safety limit).  The structural `fuel` argument is
an upper bound on the remaining iterations; started at `20` it can never
reach `0` before the `page > 20` guard fires (proved below by the
fuel-irrelevance half of the termination theorem), so the `0` branch is
unreachable. -/
def aggLoop (server : Nat → Except Unit PageResp) :
    Nat → Nat → Int → Nat → Except Unit AggResult
  | 0, _, total, fetched => .ok ⟨total, fetched⟩
  | fuel + 1, page, total, fetched => do
    let resp ← server page
    if resp.releases.isEmpty then
      .ok ⟨total, fetched + 1⟩
    else
      let total' := total + pageSum resp.releases
      if resp.hasNext then
        if page + 1 > 20 then .ok ⟨total', fetched + 1⟩
        else aggLoop server fuel (page + 1) total' (fetched + 1)
      else .ok ⟨total', fetched + 1⟩

/-- A server that answers every page request successfully. -/
def okSrv (server : Nat → PageResp) : Nat → Except Unit PageResp :=
  fun p => .ok (server p)

/-- The sum of `pageSum` over `cnt` consecutive pages starting at `start`:
the reference value the aggregator is checked against. -/
def rangeSum (server : Nat → PageResp) (start cnt : Nat) : Int :=
  ((List.range cnt).map (fun i => pageSum (server (start + i)).releases)).sum

/-- JavaScript `String.prototype.split` on a single separator character,
on the code-point list of the string. -/
def splitChar (sep : Char) : List Char → List (List Char)
  | [] => [[]]
  | c :: cs =>
    if c = sep then [] :: splitChar sep cs
    else
      match splitChar sep cs with
      | [] => [[c]]
      | r :: rs => (c :: r) :: rs

/-- The receiver of a string method call (`.substring`, `.split`): anything
but a string throws a `TypeError`. -/
def stringReceiver : JsVal → Except Unit String
  | .str s => .ok s
  | _ => .error ()

/-- `(v || '')` followed by a string method call: a falsy value becomes
`''`; a truthy non-string value has no `.split` and throws. -/
def orEmptyString (v : JsVal) : Except Unit String :=
  if jsTruthy v then stringReceiver v else .ok ""

/-- The per-commit mapping function of `GitHubAPI.loadCommits`
(script.js lines 260-266).  Property chains are evaluated in the object
literal's field order (sha, message, date, author, avatar); `c.commit` and
`c.commit.author` are read once and reused, which is equivalent because
property reads have no side effects.  `substring(0, n)` is `take n` on the
code-point list (identical for strings without surrogate pairs). -/
def normalizeCommitJs (c : JsVal) : Except Unit JsVal := do
  let shaV ← getProp c "sha"
  let shaS ← stringReceiver shaV
  let commitV ← getProp c "commit"
  let msgV ← getProp commitV "message"
  let msgS ← orEmptyString msgV
  let commitAuthorV ← getProp commitV "author"
  let dateV ← getProp commitAuthorV "date"
  let acctV ← getProp c "author"
  let authorV ← if jsTruthy acctV then getProp acctV "login"
                else getProp commitAuthorV "name"
  let avatarV ← if jsTruthy acctV then getProp acctV "avatar_url"
                else pure JsVal.jnull
  pure (.obj [("sha", .str (String.mk (shaS.data.take 7))),
              ("message", .str (String.mk (((splitChar '\n' msgS.data).headD []).take 80))),
              ("date", dateV),
              ("author", authorV),
              ("avatar", avatarV)])

/-- `data.map(c => ...)` in `GitHubAPI.loadCommits`: `.map` exists only on
arrays (anything else throws); an element's thrown `TypeError` propagates
out of the whole `map`. -/
def normalizeCommitsJs : JsVal → Except Unit JsVal
  | .arr elems => do
    let out ← elems.mapM normalizeCommitJs
    pure (.arr out)
  | _ => .error ()

/-- The fallback repo stats of the catch branch of `loadRepoStats`
(script.js line 183). -/
def repoStatsFallback : JsVal :=
  .obj [("stars", .num 10200), ("forks", .num 879),
        ("watchers", .num 168), ("openIssues", .num 0)]

/-- The try body of `GitHubAPI.loadRepoStats` (script.js lines 169-178):
fetch the repository payload and build the stats object by direct field
mapping.  The environment value is the parsed response body; `.error` is a
failed fetch, a non-2xx status or an unparsable body. -/
def repoStatsBody (env : Except Unit JsVal) : Except Unit JsVal := do
  let data ← env
  let stars ← getProp data "stargazers_count"
  let forks ← getProp data "forks_count"
  let watchers ← getProp data "subscribers_count"
  let issues ← getProp data "open_issues_count"
  pure (.obj [("stars", stars), ("forks", forks),
              ("watchers", watchers), ("openIssues", issues)])

/-- The try body of `GitHubAPI.loadTotalDownloads` (script.js lines 207-231):
run the pagination loop; its total becomes the stored number. -/
def downloadsBody (server : Nat → Except Unit PageResp) : Except Unit JsVal := do
  let r ← aggLoop server 20 1 0 0
  pure (.num r.total)

/-- The try body of `GitHubAPI.loadCommits` (script.js lines 254-266). -/
def commitsBody (env : Except Unit JsVal) : Except Unit JsVal :=
  env >>= normalizeCommitsJs

/-- The per-contributor mapping function of `GitHubAPI.loadContributors`
(script.js lines 308-313): verbatim field mapping. -/
def normalizeContributorJs (c : JsVal) : Except Unit JsVal := do
  let login ← getProp c "login"
  let avatar ← getProp c "avatar_url"
  let contributions ← getProp c "contributions"
  let url ← getProp c "html_url"
  pure (.obj [("login", login), ("avatar", avatar),
              ("contributions", contributions), ("url", url)])

/-- `data.map(c => ...)` in `GitHubAPI.loadContributors`. -/
def normalizeContributorsJs : JsVal → Except Unit JsVal
  | .arr elems => do
    let out ← elems.mapM normalizeContributorJs
    pure (.arr out)
  | _ => .error ()

/-- The try body of `GitHubAPI.loadContributors` (script.js lines 302-314). -/
def contributorsBody (env : Except Unit JsVal) : Except Unit JsVal :=
  env >>= normalizeContributorsJs

/-- `toFixed(1)` rendering of a percentage held in tenths of a percent. -/
def tenthsToString (t : Nat) : String :=
  toString (t / 10) ++ "." ++ toString (t % 10)

/-- The try body of `GitHubAPI.loadLanguages` (script.js lines 340-350).
The environment is the parsed byte-count map (name, bytes) in object field
order.  `((bytes / total) * 100).toFixed(1)` is modelled as round-half-up
to tenths of a percent (exact for the clean divisions; floating-point noise
and the `NaN` of an all-zero map are not modelled — no claim touches them).
`sort((a, b) => b.percent - a.percent)` is a stable descending sort. -/
def languagesBody (env : Except Unit (List (String × Nat))) : Except Unit JsVal := do
  let entries ← env
  let total := (entries.map (fun kv => kv.2)).sum
  let withTenths := entries.map (fun kv => (kv.1, (kv.2 * 1000 + total / 2) / total))
  let sorted := withTenths.mergeSort (fun a b => decide (b.2 ≤ a.2))
  pure (.arr (sorted.map (fun kv =>
    JsVal.obj [("name", .str kv.1), ("percent", .str (tenthsToString kv.2))])))

/-- The try body of `GitHubAPI.loadLatestRelease` (script.js lines 393-404):
direct field mapping of the latest-release payload. -/
def latestReleaseBody (env : Except Unit JsVal) : Except Unit JsVal := do
  let data ← env
  let tag ← getProp data "tag_name"
  let name ← getProp data "name"
  let date ← getProp data "published_at"
  let url ← getProp data "html_url"
  pure (.obj [("tag", tag), ("name", name), ("date", date), ("url", url)])

/-- The per-category fields of the `GitHubAPI` instance, initialized to
`null` by the constructor (script.js lines 141-148). -/
structure ApiState where
  repoStats : JsVal
  totalDownloads : JsVal
  commits : JsVal
  contributors : JsVal
  languages : JsVal
  latestRelease : JsVal

/-- The freshly constructed `GitHubAPI` state: every field `null`. -/
def ApiState.initial : ApiState :=
  ⟨.jnull, .jnull, .jnull, .jnull, .jnull, .jnull⟩

/-- Result of one category load: the updated store, the value held in the
category's field afterwards, and whether the category's render function ran. -/
structure CatResult where
  store : Store
  value : JsVal
  rendered : Bool

/-- The shared skeleton of all six `GitHubAPI.loadXxx` methods: check the
cache under the category's key (hit test `hit`: `if (cached)` for five
categories, `if (cached !== null)` for downloads); on a hit adopt the cached
value and render; on a miss run the try body, and on success store it in the
cache, adopt it and render; on a thrown failure either adopt the fixed
fallback and render (`onFail = some fb`, repo stats and downloads) or leave
the field untouched and only log (`onFail = none`, the other four). -/
def runCategory (now : Int) (key : String) (hit : JsVal → Bool)
    (body : Except Unit JsVal) (onFail : Option JsVal)
    (store : Store) (field : JsVal) : CatResult :=
  let c := CacheManager.get now store key
  if hit c.1 then ⟨c.2, c.1, true⟩
  else
    match body with
    | .ok v => ⟨CacheManager.set now c.2 key v, v, true⟩
    | .error _ =>
      match onFail with
      | some fb => ⟨c.2, fb, true⟩
      | none => ⟨c.2, field, false⟩

/-- `if (cached !== null)` — the downloads hit test (script.js line 202),
which unlike truthiness accepts a cached `0`. -/
def hitNotNull : JsVal → Bool
  | .jnull => false
  | _ => true

/-- `GitHubAPI.loadRepoStats` (script.js lines 162-186) as a `CatResult`. -/
def catRepoStats (now : Int) (e : Except Unit JsVal) (store : Store)
    (field : JsVal) : CatResult :=
  runCategory now "repo_stats" jsTruthy (repoStatsBody e)
    (some repoStatsFallback) store field

/-- `GitHubAPI.loadTotalDownloads` (script.js lines 200-239) as a
`CatResult`; the catch branch substitutes the fixed total `1000000`. -/
def catDownloads (now : Int) (server : Nat → Except Unit PageResp)
    (store : Store) (field : JsVal) : CatResult :=
  runCategory now "total_downloads" hitNotNull (downloadsBody server)
    (some (.num 1000000)) store field

/-- `GitHubAPI.loadCommits` (script.js lines 247-272) as a `CatResult`;
the catch branch only logs. -/
def catCommits (now : Int) (e : Except Unit JsVal) (store : Store)
    (field : JsVal) : CatResult :=
  runCategory now "commits" jsTruthy (commitsBody e) none store field

/-- `GitHubAPI.loadContributors` (script.js lines 295-319) as a `CatResult`. -/
def catContributors (now : Int) (e : Except Unit JsVal) (store : Store)
    (field : JsVal) : CatResult :=
  runCategory now "contributors" jsTruthy (contributorsBody e) none store field

/-- `GitHubAPI.loadLanguages` (script.js lines 333-356) as a `CatResult`. -/
def catLanguages (now : Int) (e : Except Unit (List (String × Nat)))
    (store : Store) (field : JsVal) : CatResult :=
  runCategory now "languages" jsTruthy (languagesBody e) none store field

/-- `GitHubAPI.loadLatestRelease` (script.js lines 386-410) as a
`CatResult`. -/
def catLatestRelease (now : Int) (e : Except Unit JsVal) (store : Store)
    (field : JsVal) : CatResult :=
  runCategory now "latest_release" jsTruthy (latestReleaseBody e) none store field

/-- The remote world one `GitHubAPI.init` run sees: one response (or
failure) per category; the downloads category sees one response per page. -/
structure Env where
  repoStats : Except Unit JsVal
  downloads : Nat → Except Unit PageResp
  commits : Except Unit JsVal
  contributors : Except Unit JsVal
  languages : Except Unit (List (String × Nat))
  latestRelease : Except Unit JsVal

/-- Which of the six render functions ran during `init`. -/
structure RenderFlags where
  repoStats : Bool
  downloads : Bool
  commits : Bool
  contributors : Bool
  languages : Bool
  latestRelease : Bool

/-- `GitHubAPI.init` (script.js lines 150-159): `Promise.all` launches the
six loads concurrently; execution is single-threaded and the loads own
disjoint cache keys, disjoint state fields and disjoint render targets, so
running them in launch order is an equivalent serialization. -/
def initLoads (now : Int) (env : Env) (store : Store) (st : ApiState) :
    Store × ApiState × RenderFlags :=
  let r1 := catRepoStats now env.repoStats store st.repoStats
  let r2 := catDownloads now env.downloads r1.store st.totalDownloads
  let r3 := catCommits now env.commits r2.store st.commits
  let r4 := catContributors now env.contributors r3.store st.contributors
  let r5 := catLanguages now env.languages r4.store st.languages
  let r6 := catLatestRelease now env.latestRelease r5.store st.latestRelease
  (r6.store,
   ⟨r1.value, r2.value, r3.value, r4.value, r5.value, r6.value⟩,
   ⟨r1.rendered, r2.rendered, r3.rendered, r4.rendered, r5.rendered, r6.rendered⟩)

/-- The specification's phrasing of the message truncation: the first line
of the raw message (the longest newline-free leading run), truncated to at
most 80 characters.  Compared below against the source's
`split('\n')[0].substring(0, 80)`. -/
def specFirstLine80 (s : String) : String :=
  String.mk ((s.data.takeWhile (fun ch => ch != '\n')).take 80)

/-- A concrete raw commit payload with a 40-character hash, a two-line
message and a linked account. -/
def sampleCommit : JsVal :=
  .obj [("sha", .str "0123456789abcdef0123456789abcdef01234567"),
        ("commit", .obj [("message", .str "Fix race condition in loader\nSecond line"),
                         ("author", .obj [("name", .str "Alice"),
                                          ("date", .str "2024-01-01T00:00:00Z")])]),
        ("author", .obj [("login", .str "alice"),
                         ("avatar_url", .str "https://example.test/a.png")])]

/-- The normalized form of `sampleCommit`. -/
def sampleCommitOut : JsVal :=
  .obj [("sha", .str "0123456"),
        ("message", .str "Fix race condition in loader"),
        ("date", .str "2024-01-01T00:00:00Z"),
        ("author", .str "alice"),
        ("avatar", .str "https://example.test/a.png")]

/-- A four-page sample server: three non-empty pages carrying asset counters
(including a missing counter and a release without an assets field) with the
next-page indicator present, then an empty page — the spec's pagination
scenario, scaled down. -/
def sampleServer : Nat → PageResp := fun n =>
  if n = 1 then ⟨[⟨some [⟨some 1⟩, ⟨none⟩]⟩, ⟨some [⟨some 2⟩]⟩], true⟩
  else if n = 2 then ⟨[⟨some [⟨some 3⟩]⟩, ⟨none⟩], true⟩
  else if n = 3 then ⟨[⟨some [⟨some 4⟩]⟩], true⟩
  else ⟨[], true⟩

/-- A server whose pages are all non-empty but whose first page already
lacks the next-page indicator. -/
def noNextServer : Nat → PageResp := fun _ => ⟨[⟨some [⟨some 5⟩]⟩], false⟩

/-- A server with endless non-empty pages and an always-present next-page
indicator (inconsistent pagination signals). -/
def endlessServer : Nat → PageResp := fun _ => ⟨[⟨some [⟨some 1⟩]⟩], true⟩

/-! ### Store lemmas -/

theorem lookup_setStore_self (s : Store) (k : String) (v : Option JsVal) :
    lookupStore (setStore s k v) k = some v := by
  simp [lookupStore, setStore, List.find?_cons_of_pos]

theorem lookup_filter_agree (p : String × Option JsVal → Bool) (s : Store) (k : String)
    (h : ∀ v, p (k, v) = true) :
    lookupStore (s.filter p) k = lookupStore s k := by
  induction s with
  | nil => rfl
  | cons kv t ih =>
    obtain ⟨a, b⟩ := kv
    by_cases hab : a = k
    · subst hab
      simp [lookupStore, List.filter_cons, h b, List.find?_cons_of_pos]
    · have hne : (a == k) = false := by simp [hab]
      cases hp : p (a, b) with
      | true =>
        simpa [lookupStore, List.filter_cons, hp, List.find?_cons_of_neg, hne] using ih
      | false =>
        simpa [lookupStore, List.filter_cons, hp, List.find?_cons_of_neg, hne] using ih

theorem lookup_filter_keep (p : String × Option JsVal → Bool) (s : Store) (k : String)
    (v : Option JsVal) (hl : lookupStore s k = some v) (hp : p (k, v) = true) :
    lookupStore (s.filter p) k = some v := by
  induction s with
  | nil => simp [lookupStore] at hl
  | cons kv t ih =>
    obtain ⟨a, b⟩ := kv
    by_cases hab : a = k
    · subst hab
      have hb : b = v := by simpa [lookupStore, List.find?_cons_of_pos] using hl
      subst hb
      simp [lookupStore, List.filter_cons, hp, List.find?_cons_of_pos]
    · have hne : (a == k) = false := by simp [hab]
      have hl' : lookupStore t k = some v := by
        simpa [lookupStore, List.find?_cons_of_neg, hne] using hl
      cases hpa : p (a, b) with
      | true =>
        simpa [lookupStore, List.filter_cons, hpa, List.find?_cons_of_neg, hne]
          using ih hl'
      | false =>
        simpa [lookupStore, List.filter_cons, hpa] using ih hl'

theorem lookup_none_filter (p : String × Option JsVal → Bool) (s : Store) (k : String)
    (hl : lookupStore s k = none) :
    lookupStore (s.filter p) k = none := by
  induction s with
  | nil => rfl
  | cons kv t ih =>
    obtain ⟨a, b⟩ := kv
    have hne : (a == k) = false := by
      cases hab : (a == k) with
      | true => simp [lookupStore, List.find?_cons_of_pos, hab] at hl
      | false => rfl
    have hl' : lookupStore t k = none := by
      simpa [lookupStore, List.find?_cons_of_neg, hne] using hl
    cases hpa : p (a, b) with
    | true =>
      simpa [lookupStore, List.filter_cons, hpa, List.find?_cons_of_neg, hne] using ih hl'
    | false =>
      simpa [lookupStore, List.filter_cons, hpa] using ih hl'

theorem lookup_eq_none_of_not_mem (s : Store) (k : String)
    (h : k ∉ s.map Prod.fst) :
    lookupStore s k = none := by
  induction s with
  | nil => rfl
  | cons kv t ih =>
    obtain ⟨a, b⟩ := kv
    simp only [List.map_cons, List.mem_cons, not_or] at h
    have hne : (a == k) = false := by simp [Ne.symm h.1]
    simpa [lookupStore, List.find?_cons_of_neg, hne] using ih h.2

theorem lookup_filter_drop (p : String × Option JsVal → Bool) (s : Store) (k : String)
    (v : Option JsVal) (hnd : (s.map Prod.fst).Nodup)
    (hl : lookupStore s k = some v) (hp : p (k, v) = false) :
    lookupStore (s.filter p) k = none := by
  induction s with
  | nil => simp [lookupStore] at hl
  | cons kv t ih =>
    obtain ⟨a, b⟩ := kv
    simp only [List.map_cons, List.nodup_cons] at hnd
    by_cases hab : a = k
    · subst hab
      have hb : b = v := by simpa [lookupStore, List.find?_cons_of_pos] using hl
      subst hb
      have ht : lookupStore t a = none := lookup_eq_none_of_not_mem t a hnd.1
      simpa [List.filter_cons, hp] using lookup_none_filter p t a ht
    · have hne : (a == k) = false := by simp [hab]
      have hl' : lookupStore t k = some v := by
        simpa [lookupStore, List.find?_cons_of_neg, hne] using hl
      cases hpa : p (a, b) with
      | true =>
        simpa [lookupStore, List.filter_cons, hpa, List.find?_cons_of_neg, hne]
          using ih hnd.2 hl'
      | false =>
        simpa [lookupStore, List.filter_cons, hpa] using ih hnd.2 hl'

theorem lookup_removeKey_ne (s : Store) (k' k : String) (h : k' ≠ k) :
    lookupStore (removeKeyStore s k') k = lookupStore s k := by
  apply lookup_filter_agree
  intro v
  simp [Ne.symm h]

theorem lookup_setStore_ne (s : Store) (k' k : String) (v : Option JsVal)
    (h : k' ≠ k) :
    lookupStore (setStore s k' v) k = lookupStore s k := by
  have hne : (k' == k) = false := by simp [h]
  calc lookupStore (setStore s k' v) k
      = lookupStore (removeKeyStore s k') k := by
        simp [setStore, lookupStore, List.find?_cons_of_neg, hne]
    _ = lookupStore s k := lookup_removeKey_ne s k' k h

theorem removeKey_setStore (s : Store) (k : String) (v : Option JsVal) :
    removeKeyStore (setStore s k v) k = removeKeyStore s k := by
  simp [setStore, removeKeyStore, List.filter_cons, List.filter_filter]

/-! ### Claim theorems: cache, render, formatting -/

/-- C1: for every key and every JSON value, a `CacheManager.get` performed
immediately after a `CacheManager.set` of that key returns exactly the
stored value when at most the 30-minute TTL has elapsed; once strictly more
than the TTL has elapsed it returns absent (`null`) and removes the entry
from the store as a side effect. -/
theorem cache_get_after_set (now0 now1 : Int) (store : Store) (key : String)
    (data : JsVal) (_hjson : isJsonVal data = true) :
    (now1 - now0 ≤ CACHE_DURATION →
      CacheManager.get now1 (CacheManager.set now0 store key data) key
        = (data, CacheManager.set now0 store key data)) ∧
    (now1 - now0 > CACHE_DURATION →
      CacheManager.get now1 (CacheManager.set now0 store key data) key
        = (.jnull, removeKeyStore store ("die_" ++ key))) := by
  have hl : lookupStore (CacheManager.set now0 store key data) ("die_" ++ key)
      = some (some (.obj [("data", data), ("timestamp", .num now0)])) :=
    lookup_setStore_self store ("die_" ++ key) _
  have hts : getProp (.obj [("data", data), ("timestamp", .num now0)]) "timestamp"
      = .ok (.num now0) := rfl
  have hd : getProp (.obj [("data", data), ("timestamp", .num now0)]) "data"
      = .ok data := rfl
  constructor
  · intro hle
    simp only [CacheManager.get, hl, hts, hd]
    rw [if_neg (by omega)]
  · intro hgt
    simp only [CacheManager.get, hl, hts, hd]
    rw [if_pos (by omega), CacheManager.set, removeKey_setStore]

/-- Witness for C1 at a concrete key, value and pair of instants, once
inside and once beyond the TTL. -/
theorem cache_get_after_set_witness :
    (isJsonVal (.num 42) = true) ∧
    ((1000000 : Int) - 0 ≤ CACHE_DURATION) ∧
    CacheManager.get 1000000 (CacheManager.set 0 [] "repo_stats" (.num 42)) "repo_stats"
      = (.num 42, CacheManager.set 0 [] "repo_stats" (.num 42)) ∧
    ((2000000 : Int) - 0 > CACHE_DURATION) ∧
    CacheManager.get 2000000 (CacheManager.set 0 [] "repo_stats" (.num 42)) "repo_stats"
      = (.jnull, removeKeyStore [] ("die_" ++ "repo_stats")) :=
  ⟨rfl, by decide,
   (cache_get_after_set 0 1000000 [] "repo_stats" (.num 42) rfl).1 (by decide),
   by decide,
   (cache_get_after_set 0 2000000 [] "repo_stats" (.num 42) rfl).2 (by decide)⟩

/-- C7: `updateEl` is idempotent.  When the new value already equals the
displayed text it returns the element unchanged (no text write, no fade
transition); applying it twice with the same value equals applying it once,
so the second call changes no text and starts no transition. -/
theorem updateEl_idempotent (el : El) (value : String) :
    (el.textContent = value → updateEl el value = el) ∧
    updateEl (updateEl el value) value = updateEl el value := by
  constructor
  · intro h
    simp [updateEl, h]
  · by_cases h : el.textContent = value
    · simp [updateEl, h]
    · simp [updateEl, h]

/-- Witness for C7 at a concrete element whose displayed text already equals
the incoming value. -/
theorem updateEl_idempotent_witness :
    (El.mk "1.5k" 3).textContent = "1.5k" ∧
    updateEl (El.mk "1.5k" 3) "1.5k" = El.mk "1.5k" 3 :=
  ⟨rfl, (updateEl_idempotent (El.mk "1.5k" 3) "1.5k").1 rfl⟩

/-- C8: the sweep `CacheManager.clearOld` removes every cache entry whose
timestamp is more than the 24-hour retention window old and retains (with
identical stored value) every entry at most that old, regardless of the
30-minute TTL `get` uses; the timestamp `t` is arbitrary, so both stale- and
fresh-under-TTL entries are covered.  (The sweep is invoked exactly once, at
the top of the `DOMContentLoaded` handler, script.js line 639; no timer
re-runs it.) -/
theorem clearOld_retention (now : Int) (store : Store) (k : String)
    (parsed : JsVal) (t : Int)
    (hnd : (store.map Prod.fst).Nodup)
    (hk : strStartsWith k "die_" = true)
    (hl : lookupStore store k = some (some parsed))
    (ht : getProp parsed "timestamp" = .ok (.num t)) :
    (now - t > 24 * 60 * 60 * 1000 →
      lookupStore (CacheManager.clearOld now store) k = none) ∧
    (now - t ≤ 24 * 60 * 60 * 1000 →
      lookupStore (CacheManager.clearOld now store) k = some (some parsed)) := by
  constructor
  · intro hold
    apply lookup_filter_drop _ store k _ hnd hl
    simp only [hk, ht, if_true]
    rw [if_pos (by omega)]
  · intro hfresh
    apply lookup_filter_keep _ store k _ hl
    simp only [hk, ht, if_true]
    rw [if_neg (by omega)]

/-- Witness for C8 on a concrete two-entry store holding one entry beyond
and one within the retention window. -/
theorem clearOld_retention_witness :
    ((100000000 : Int) - 0 > 24 * 60 * 60 * 1000) ∧
    lookupStore
      (CacheManager.clearOld 100000000
        [("die_a", some (.obj [("timestamp", .num 0)])),
         ("die_b", some (.obj [("timestamp", .num 50000000)]))]) "die_a" = none ∧
    ((100000000 : Int) - 50000000 ≤ 24 * 60 * 60 * 1000) ∧
    lookupStore
      (CacheManager.clearOld 100000000
        [("die_a", some (.obj [("timestamp", .num 0)])),
         ("die_b", some (.obj [("timestamp", .num 50000000)]))]) "die_b"
      = some (some (.obj [("timestamp", .num 50000000)])) :=
  ⟨by decide,
   (clearOld_retention 100000000
      [("die_a", some (.obj [("timestamp", .num 0)])),
       ("die_b", some (.obj [("timestamp", .num 50000000)]))]
      "die_a" (.obj [("timestamp", .num 0)]) 0
      (by decide) (by decide) rfl rfl).1 (by decide),
   by decide,
   (clearOld_retention 100000000
      [("die_a", some (.obj [("timestamp", .num 0)])),
       ("die_b", some (.obj [("timestamp", .num 50000000)]))]
      "die_b" (.obj [("timestamp", .num 50000000)]) 50000000
      (by decide) (by decide) rfl rfl).2 (by decide)⟩

/-- C9: `Utils.formatNumber` maps 950 to "950", 1500 to "1.5k", 2300000 to
"2.3M" and 1000 to "1k", the last suppressing the trailing ".0" of the
one-decimal mantissa. -/
theorem formatNumber_examples :
    formatNumber 950 = "950" ∧ formatNumber 1500 = "1.5k" ∧
    formatNumber 2300000 = "2.3M" ∧ formatNumber 1000 = "1k" :=
  ⟨rfl, rfl, rfl, rfl⟩

/-- C10: the sweep only ever touches keys starting with the `die_`
namespace: the lookup of any key without that namespace is unchanged by
`clearOld` — whatever its stored value, including one parsing to an entry
older than the retention window. -/
theorem clearOld_foreign_keys (now : Int) (store : Store) (k : String)
    (h : strStartsWith k "die_" = false) :
    lookupStore (CacheManager.clearOld now store) k = lookupStore store k := by
  apply lookup_filter_agree
  intro v
  simp [h]

/-- Witness for C10: a foreign key whose value parses to an entry far older
than the retention window survives the sweep untouched. -/
theorem clearOld_foreign_keys_witness :
    (strStartsWith "other" "die_" = false) ∧
    lookupStore
      (CacheManager.clearOld 100000000 [("other", some (.obj [("timestamp", .num 0)]))])
      "other" = some (some (.obj [("timestamp", .num 0)])) :=
  ⟨by decide, by
    rw [clearOld_foreign_keys 100000000 _ "other" (by decide)]
    rfl⟩

/-! ### Pagination aggregator lemmas -/

theorem rangeSum_zero (server : Nat → PageResp) (start : Nat) :
    rangeSum server start 0 = 0 := rfl

theorem rangeSum_succ (server : Nat → PageResp) (start n : Nat) :
    rangeSum server start (n + 1)
      = pageSum (server start).releases + rangeSum server (start + 1) n := by
  have hfun : ((fun i => pageSum (server (start + i)).releases) ∘ Nat.succ)
      = fun i => pageSum (server (start + 1 + i)).releases := by
    funext i
    show pageSum (server (start + Nat.succ i)).releases = _
    rw [show start + Nat.succ i = start + 1 + i from by omega]
  unfold rangeSum
  rw [List.range_succ_eq_map, List.map_cons, List.map_map, List.sum_cons,
    Nat.add_zero, hfun]

theorem rangeSum_one (server : Nat → PageResp) (start : Nat) :
    rangeSum server start 1 = pageSum (server start).releases := by
  unfold rangeSum
  rw [show List.range 1 = [0] from rfl, List.map_cons, List.map_nil,
    List.sum_cons, List.sum_nil, Nat.add_zero, add_zero]

theorem aggLoop_ok_succ (server : Nat → PageResp) (fuel page : Nat) (total : Int)
    (fetched : Nat) :
    aggLoop (okSrv server) (fuel + 1) page total fetched =
      if (server page).releases.isEmpty then Except.ok ⟨total, fetched + 1⟩
      else
        if (server page).hasNext then
          if page + 1 > 20 then
            Except.ok ⟨total + pageSum (server page).releases, fetched + 1⟩
          else
            aggLoop (okSrv server) fuel (page + 1)
              (total + pageSum (server page).releases) (fetched + 1)
        else Except.ok ⟨total + pageSum (server page).releases, fetched + 1⟩ := rfl

theorem aggLoop_ok_bound (server : Nat → PageResp) :
    ∀ fuel page (total : Int) fetched, ∃ r,
      aggLoop (okSrv server) fuel page total fetched = .ok r ∧
      r.pagesFetched ≤ fetched + fuel := by
  intro fuel
  induction fuel with
  | zero =>
    intro page total fetched
    exact ⟨⟨total, fetched⟩, rfl, by show fetched ≤ fetched + 0; omega⟩
  | succ f ih =>
    intro page total fetched
    rw [aggLoop_ok_succ]
    by_cases hemp : (server page).releases.isEmpty = true
    · exact ⟨⟨total, fetched + 1⟩, by simp [hemp],
        by show fetched + 1 ≤ fetched + (f + 1); omega⟩
    · by_cases hnx : (server page).hasNext = true
      · by_cases hg : page + 1 > 20
        · exact ⟨⟨total + pageSum (server page).releases, fetched + 1⟩,
            by simp [hemp, hnx, hg],
            by show fetched + 1 ≤ fetched + (f + 1); omega⟩
        · obtain ⟨r, hr, hb⟩ :=
            ih (page + 1) (total + pageSum (server page).releases) (fetched + 1)
          exact ⟨r, by simp [hemp, hnx, hg, hr], by omega⟩
      · exact ⟨⟨total + pageSum (server page).releases, fetched + 1⟩,
          by simp [hemp, hnx],
          by show fetched + 1 ≤ fetched + (f + 1); omega⟩

theorem aggLoop_ok_total (server : Nat → PageResp) :
    ∀ fuel page (total : Int) fetched r,
      aggLoop (okSrv server) fuel page total fetched = .ok r →
      fetched ≤ r.pagesFetched ∧
      r.total = total + rangeSum server page (r.pagesFetched - fetched) := by
  intro fuel
  induction fuel with
  | zero =>
    intro page total fetched r h
    simp only [aggLoop, Except.ok.injEq] at h
    obtain rfl := h.symm
    simp [rangeSum_zero]
  | succ f ih =>
    intro page total fetched r h
    rw [aggLoop_ok_succ] at h
    by_cases hemp : (server page).releases.isEmpty = true
    · rw [if_pos hemp] at h
      have hrel : (server page).releases = [] := List.isEmpty_iff.mp hemp
      simp only [Except.ok.injEq] at h
      obtain rfl := h.symm
      simp [rangeSum_one, hrel, pageSum]
    · rw [if_neg hemp] at h
      by_cases hnx : (server page).hasNext = true
      · rw [if_pos hnx] at h
        by_cases hg : page + 1 > 20
        · rw [if_pos hg] at h
          simp only [Except.ok.injEq] at h
          obtain rfl := h.symm
          simp [rangeSum_one]
        · rw [if_neg hg] at h
          obtain ⟨h1, h2⟩ :=
            ih (page + 1) (total + pageSum (server page).releases) (fetched + 1) r h
          refine ⟨by omega, ?_⟩
          have hd : r.pagesFetched - fetched = (r.pagesFetched - (fetched + 1)) + 1 := by
            omega
          rw [h2, hd, rangeSum_succ, add_assoc]
      · rw [if_neg hnx] at h
        simp only [Except.ok.injEq] at h
        obtain rfl := h.symm
        simp [rangeSum_one]

theorem aggLoop_run_to (server : Nat → PageResp) :
    ∀ fuel page (total : Int) fetched p,
      page ≤ p → p ≤ 20 → p - page < fuel →
      (∀ i, page ≤ i → i < p →
        (server i).releases.isEmpty = false ∧ (server i).hasNext = true) →
      ((server p).releases.isEmpty = true →
        aggLoop (okSrv server) fuel page total fetched
          = .ok ⟨total + rangeSum server page (p - page), (p - page) + fetched + 1⟩) ∧
      ((server p).releases.isEmpty = false → (server p).hasNext = false →
        aggLoop (okSrv server) fuel page total fetched
          = .ok ⟨total + rangeSum server page (p - page + 1), (p - page) + fetched + 1⟩) := by
  intro fuel
  induction fuel with
  | zero =>
    intro page total fetched p hpp hp20 hfuel hprev
    omega
  | succ f ih =>
    intro page total fetched p hpp hp20 hfuel hprev
    by_cases hpage : page = p
    · subst hpage
      rw [aggLoop_ok_succ]
      constructor
      · intro hemp
        rw [if_pos hemp]
        simp [rangeSum_zero]
      · intro hemp hnx
        rw [if_neg (by simp [hemp]), if_neg (by simp [hnx])]
        simp [rangeSum_one]
    · have hlt : page < p := by omega
      have hstep := hprev page (le_refl page) hlt
      have hg : ¬ page + 1 > 20 := by omega
      rw [aggLoop_ok_succ, if_neg (by simp [hstep.1]), if_pos hstep.2, if_neg hg]
      have hprev' : ∀ i, page + 1 ≤ i → i < p →
          (server i).releases.isEmpty = false ∧ (server i).hasNext = true := by
        intro i h1 h2
        exact hprev i (by omega) h2
      have hih := ih (page + 1) (total + pageSum (server page).releases)
        (fetched + 1) p (by omega) hp20 (by omega) hprev'
      have hd : p - page = (p - (page + 1)) + 1 := by omega
      constructor
      · intro hemp
        rw [hih.1 hemp, hd, rangeSum_succ, add_assoc]
        have : p - (page + 1) + 1 + fetched + 1 = p - (page + 1) + (fetched + 1) + 1 := by
          omega
        rw [this]
      · intro hemp hnx
        rw [hih.2 hemp hnx, hd,
          show rangeSum server page (p - (page + 1) + 1 + 1)
              = pageSum (server page).releases
                + rangeSum server (page + 1) (p - (page + 1) + 1) from
            rangeSum_succ server page (p - (page + 1) + 1),
          add_assoc]
        have h2 : p - (page + 1) + 1 + fetched + 1 = p - (page + 1) + (fetched + 1) + 1 := by
          omega
        rw [h2]

theorem aggLoop_fuel_irrelevant (server : Nat → Except Unit PageResp) :
    ∀ f1 f2 page (total : Int) fetched,
      page ≤ 20 → 21 - page ≤ f1 → 21 - page ≤ f2 →
      aggLoop server f1 page total fetched = aggLoop server f2 page total fetched := by
  intro f1
  induction f1 with
  | zero =>
    intro f2 page total fetched h20 h1 h2
    omega
  | succ f1' ih =>
    intro f2 page total fetched h20 h1 h2
    cases f2 with
    | zero => omega
    | succ f2' =>
      show aggLoop server (f1' + 1) page total fetched
        = aggLoop server (f2' + 1) page total fetched
      simp only [aggLoop]
      cases hresp : server page with
      | error e => rfl
      | ok resp =>
        simp only [bind, Except.bind]
        by_cases hemp : resp.releases.isEmpty = true
        · simp [hemp]
        · simp only [if_neg hemp]
          by_cases hnx : resp.hasNext = true
          · by_cases hg : page + 1 > 20
            · simp [hnx, hg]
            · simp only [hnx, if_true, if_neg hg]
              exact ih f2' (page + 1) (total + pageSum resp.releases) (fetched + 1)
                (by omega) (by omega) (by omega)
          · simp [hnx]

/-! ### Claim theorems: pagination aggregator -/

/-- C3: run over a sequence of release pages of which the first `p - 1` are
non-empty with a next-page indicator, the aggregator (a) on an empty page
`p` stops immediately with exactly the sum of every asset's download counter
(missing counters count 0, via `pageSum`) of the `p` fetched pages — the
empty page contributing nothing; (b) on a page `p` whose next-page indicator
is absent it stops after that page regardless of the page's content size,
with the sum over all `p` pages; and (c) in every successful run the total
is exactly the sum over the fetched pages. -/
theorem aggregator_sum_and_stop (server : Nat → PageResp) (p : Nat)
    (hp1 : 1 ≤ p) (hp20 : p ≤ 20)
    (hprev : ∀ i, 1 ≤ i → i < p →
      (server i).releases.isEmpty = false ∧ (server i).hasNext = true) :
    ((server p).releases.isEmpty = true →
      aggLoop (okSrv server) 20 1 0 0 = .ok ⟨rangeSum server 1 (p - 1), p⟩) ∧
    ((server p).releases.isEmpty = false → (server p).hasNext = false →
      aggLoop (okSrv server) 20 1 0 0 = .ok ⟨rangeSum server 1 p, p⟩) ∧
    (∀ r, aggLoop (okSrv server) 20 1 0 0 = .ok r →
      r.total = rangeSum server 1 r.pagesFetched) := by
  have hrun := aggLoop_run_to server 20 1 0 0 p hp1 hp20 (by omega) hprev
  refine ⟨?_, ?_, ?_⟩
  · intro hemp
    rw [hrun.1 hemp]
    simp only [Except.ok.injEq, AggResult.mk.injEq]
    exact ⟨zero_add _, by omega⟩
  · intro hemp hnx
    have hp : p - 1 + 1 = p := by omega
    rw [hrun.2 hemp hnx]
    simp only [Except.ok.injEq, AggResult.mk.injEq]
    exact ⟨by rw [zero_add, hp], by omega⟩
  · intro r h
    have := (aggLoop_ok_total server 20 1 0 0 r h).2
    rw [this, zero_add, Nat.sub_zero]

/-- Witness for C3: on the four-page sample server the aggregator returns
exactly 10 = (1+0+2)+(3+0)+4 and fetches 4 pages, stopping at the empty
page; on the server lacking the next-page indicator on page 1 it stops
after page 1 with that page's sum. -/
theorem aggregator_sum_and_stop_witness :
    ((1 : Nat) ≤ 4) ∧ ((4 : Nat) ≤ 20) ∧
    (sampleServer 4).releases.isEmpty = true ∧
    aggLoop (okSrv sampleServer) 20 1 0 0 = .ok ⟨10, 4⟩ ∧
    (noNextServer 1).hasNext = false ∧
    aggLoop (okSrv noNextServer) 20 1 0 0 = .ok ⟨5, 1⟩ := by
  refine ⟨by omega, by omega, rfl, ?_, rfl, ?_⟩
  · have hprev : ∀ i, 1 ≤ i → i < 4 →
        (sampleServer i).releases.isEmpty = false ∧ (sampleServer i).hasNext = true := by
      intro i h1 h2
      interval_cases i <;> exact ⟨rfl, rfl⟩
    exact (aggregator_sum_and_stop sampleServer 4 (by omega) (by omega) hprev).1 rfl
  · have hprev : ∀ i, 1 ≤ i → i < 1 →
        (noNextServer i).releases.isEmpty = false ∧ (noNextServer i).hasNext = true := by
      intro i h1 h2
      omega
    exact (aggregator_sum_and_stop noNextServer 1 (by omega) (by omega) hprev).2.1 rfl rfl

/-- C4: for every sequence of server responses — including ones whose
next-page indicator is always present — the pagination loop terminates with
at most 20 pages fetched (the `page > 20` safety limit).  The second
conjunct shows the bound is enforced by the guard and not by the model's
structural fuel: any fuel of at least 20 iterations produces the identical
run. -/
theorem aggregator_bounded_pages (server : Nat → PageResp) :
    (∃ r, aggLoop (okSrv server) 20 1 0 0 = .ok r ∧ r.pagesFetched ≤ 20) ∧
    (∀ fuel, 20 ≤ fuel →
      aggLoop (okSrv server) fuel 1 0 0 = aggLoop (okSrv server) 20 1 0 0) := by
  constructor
  · obtain ⟨r, hr, hb⟩ := aggLoop_ok_bound server 20 1 0 0
    exact ⟨r, hr, by omega⟩
  · intro fuel hfuel
    exact aggLoop_fuel_irrelevant (okSrv server) fuel 20 1 0 0
      (by omega) (by omega) (by omega)

/-- Witness for C4 on the endless server (always non-empty, always a
next-page indicator): extra fuel changes nothing, and the run concretely
stops after exactly 20 fetched pages. -/
theorem aggregator_bounded_pages_witness :
    ((20 : Nat) ≤ 25) ∧
    aggLoop (okSrv endlessServer) 25 1 0 0 = aggLoop (okSrv endlessServer) 20 1 0 0 ∧
    aggLoop (okSrv endlessServer) 20 1 0 0 = .ok ⟨20, 20⟩ :=
  ⟨by omega, (aggregator_bounded_pages endlessServer).2 25 (by omega), rfl⟩

/-! ### Commit normalization lemmas -/

theorem exceptBind_ok {α β : Type} (x : Except Unit α) (f : α → Except Unit β) (b : β) :
    (x >>= f) = .ok b ↔ ∃ a, x = .ok a ∧ f a = .ok b := by
  cases x with
  | error e => simp [Bind.bind, Except.bind]
  | ok a => simp [Bind.bind, Except.bind]

theorem mapM_ok_length (f : JsVal → Except Unit JsVal) :
    ∀ (l out : List JsVal), l.mapM f = .ok out → out.length = l.length := by
  intro l
  induction l with
  | nil =>
    intro out h
    simp only [List.mapM_nil, pure, Except.pure, Except.ok.injEq] at h
    subst h
    rfl
  | cons x xs ih =>
    intro out h
    rw [List.mapM_cons, exceptBind_ok] at h
    obtain ⟨y, hy, h⟩ := h
    rw [exceptBind_ok] at h
    obtain ⟨ys, hys, h⟩ := h
    simp only [pure, Except.pure, Except.ok.injEq] at h
    subst h
    simp [ih ys hys]

theorem stringReceiver_ok (v : JsVal) (s : String)
    (h : stringReceiver v = .ok s) : v = .str s := by
  cases v <;> simp_all [stringReceiver]

theorem splitChar_ne_nil (sep : Char) (l : List Char) : splitChar sep l ≠ [] := by
  cases l with
  | nil => simp [splitChar]
  | cons c cs =>
    by_cases hc : c = sep
    · simp [splitChar, hc]
    · simp only [splitChar, if_neg hc]
      cases splitChar sep cs <;> simp

theorem splitChar_headD (sep : Char) (l : List Char) :
    (splitChar sep l).headD [] = l.takeWhile (fun c => c != sep) := by
  induction l with
  | nil => rfl
  | cons c cs ih =>
    by_cases hc : c = sep
    · subst hc
      simp [splitChar, List.takeWhile_cons]
    · have hne : (c != sep) = true := by simp [hc]
      simp only [splitChar, if_neg hc]
      cases hsplit : splitChar sep cs with
      | nil => exact absurd hsplit (splitChar_ne_nil sep cs)
      | cons r rs =>
        simp only [List.headD_cons, List.takeWhile_cons, hne, if_true]
        rw [← ih, hsplit, List.headD_cons]

theorem mkTake_length_le (l : List Char) (n : Nat) :
    (String.mk (l.take n)).length ≤ n := by
  have h : (String.mk (l.take n)).length = (l.take n).length := rfl
  rw [h, List.length_take]
  exact min_le_left _ _

theorem specFirstLine80_no_newline (s : String) :
    ∀ ch ∈ (specFirstLine80 s).data, ch ≠ '\n' := by
  intro ch hch
  have h1 : ch ∈ s.data.takeWhile (fun c => c != '\n') :=
    List.take_subset _ _ hch
  have h2 := List.mem_takeWhile_imp h1
  simpa using h2

/-! ### Claim theorems: commit normalization -/

/-- C5 counterexample: commit normalization does not produce a sequence of
fixed length 8 for every remote commit-list response — an empty response
list normalizes successfully to a sequence of length 0. -/
theorem commits_fixed_length_cex :
    normalizeCommitsJs (.arr []) = .ok (.arr []) ∧
    ¬ (([] : List JsVal).length = 8) :=
  ⟨rfl, by decide⟩

/-- C5 (amended): commit normalization preserves the response's length —
the request caps it at 8 via `per_page=8`, but the code fixes no length —
and every successfully normalized entry has: a hash that is the raw hash
truncated to 7 characters (hence length at most 7), a message that is the
first line of the raw message (after `|| ''`) truncated to at most 80
characters (hence newline-free and of length at most 80), the
linked-account login as author when a linked account exists and otherwise
the raw commit-author name, and the linked account's avatar URL when a
linked account exists and otherwise `null`. -/
theorem commits_normalization_amended (elems out : List JsVal) (c e : JsVal) :
    (normalizeCommitsJs (.arr elems) = .ok (.arr out) → out.length = elems.length) ∧
    (normalizeCommitJs c = .ok e →
      ∃ (shaRaw msgRaw : String)
        (commitV commitAuthorV dateV acctV authorV avatarV : JsVal),
        getProp c "sha" = .ok (.str shaRaw) ∧
        getProp c "commit" = .ok commitV ∧
        (getProp commitV "message" >>= orEmptyString) = .ok msgRaw ∧
        getProp commitV "author" = .ok commitAuthorV ∧
        getProp commitAuthorV "date" = .ok dateV ∧
        getProp c "author" = .ok acctV ∧
        (jsTruthy acctV = true →
          getProp acctV "login" = .ok authorV ∧
          getProp acctV "avatar_url" = .ok avatarV) ∧
        (jsTruthy acctV = false →
          getProp commitAuthorV "name" = .ok authorV ∧ avatarV = .jnull) ∧
        e = .obj [("sha", .str (String.mk (shaRaw.data.take 7))),
                  ("message", .str (specFirstLine80 msgRaw)),
                  ("date", dateV), ("author", authorV), ("avatar", avatarV)] ∧
        (String.mk (shaRaw.data.take 7)).length ≤ 7 ∧
        (specFirstLine80 msgRaw).length ≤ 80 ∧
        (∀ ch ∈ (specFirstLine80 msgRaw).data, ch ≠ '\n')) := by
  constructor
  · intro h
    unfold normalizeCommitsJs at h
    rw [exceptBind_ok] at h
    obtain ⟨l, hl, h⟩ := h
    simp only [pure, Except.pure, Except.ok.injEq, JsVal.arr.injEq] at h
    subst h
    exact mapM_ok_length _ _ _ hl
  · intro h
    unfold normalizeCommitJs at h
    rw [exceptBind_ok] at h; obtain ⟨shaV, hshaV, h⟩ := h
    rw [exceptBind_ok] at h; obtain ⟨shaS, hshaS, h⟩ := h
    rw [exceptBind_ok] at h; obtain ⟨commitV, hcommitV, h⟩ := h
    rw [exceptBind_ok] at h; obtain ⟨msgV, hmsgV, h⟩ := h
    rw [exceptBind_ok] at h; obtain ⟨msgS, hmsgS, h⟩ := h
    rw [exceptBind_ok] at h; obtain ⟨commitAuthorV, hcaV, h⟩ := h
    rw [exceptBind_ok] at h; obtain ⟨dateV, hdateV, h⟩ := h
    rw [exceptBind_ok] at h; obtain ⟨acctV, hacctV, h⟩ := h
    have hvstr : shaV = .str shaS := stringReceiver_ok shaV shaS hshaS
    subst hvstr
    by_cases hacct : jsTruthy acctV = true
    · simp only [if_pos hacct] at h
      rw [exceptBind_ok] at h; obtain ⟨authorV, hauthorV, h⟩ := h
      rw [exceptBind_ok] at h; obtain ⟨avatarV, havatarV, h⟩ := h
      simp only [pure, Except.pure, Except.ok.injEq] at h
      subst h
      refine ⟨shaS, msgS, commitV, commitAuthorV, dateV, acctV, authorV, avatarV,
        hshaV, hcommitV, ?_, hcaV, hdateV, hacctV, ?_, ?_, ?_, ?_, ?_, ?_⟩
      · rw [exceptBind_ok]
        exact ⟨msgV, hmsgV, hmsgS⟩
      · intro _
        exact ⟨hauthorV, havatarV⟩
      · intro hfalse
        simp [hacct] at hfalse
      · simp only [specFirstLine80, splitChar_headD]
      · exact mkTake_length_le shaS.data 7
      · exact mkTake_length_le (msgS.data.takeWhile (fun c => c != '\n')) 80
      · exact specFirstLine80_no_newline msgS
    · simp only [if_neg hacct] at h
      rw [exceptBind_ok] at h; obtain ⟨authorV, hauthorV, h⟩ := h
      rw [exceptBind_ok] at h; obtain ⟨avatarV, havatarV, h⟩ := h
      have havj : avatarV = .jnull := by
        simpa [pure, Except.pure] using havatarV.symm
      simp only [pure, Except.pure, Except.ok.injEq] at h
      subst h
      refine ⟨shaS, msgS, commitV, commitAuthorV, dateV, acctV, authorV, avatarV,
        hshaV, hcommitV, ?_, hcaV, hdateV, hacctV, ?_, ?_, ?_, ?_, ?_, ?_⟩
      · rw [exceptBind_ok]
        exact ⟨msgV, hmsgV, hmsgS⟩
      · intro htrue
        exact absurd htrue hacct
      · intro _
        exact ⟨hauthorV, havj⟩
      · simp only [specFirstLine80, splitChar_headD]
      · exact mkTake_length_le shaS.data 7
      · exact mkTake_length_le (msgS.data.takeWhile (fun c => c != '\n')) 80
      · exact specFirstLine80_no_newline msgS

/-- Witness for C5's amended theorem at `sampleCommit`: a one-element
response normalizes to a one-element sequence, and the normalized entry's
properties hold at a concrete 40-character hash and two-line message. -/
theorem commits_normalization_amended_witness :
    normalizeCommitsJs (.arr [sampleCommit]) = .ok (.arr [sampleCommitOut]) ∧
    ([sampleCommitOut] : List JsVal).length = ([sampleCommit] : List JsVal).length ∧
    normalizeCommitJs sampleCommit = .ok sampleCommitOut ∧
    (∃ (shaRaw msgRaw : String)
        (commitV commitAuthorV dateV acctV authorV avatarV : JsVal),
        getProp sampleCommit "sha" = .ok (.str shaRaw) ∧
        getProp sampleCommit "commit" = .ok commitV ∧
        (getProp commitV "message" >>= orEmptyString) = .ok msgRaw ∧
        getProp commitV "author" = .ok commitAuthorV ∧
        getProp commitAuthorV "date" = .ok dateV ∧
        getProp sampleCommit "author" = .ok acctV ∧
        (jsTruthy acctV = true →
          getProp acctV "login" = .ok authorV ∧
          getProp acctV "avatar_url" = .ok avatarV) ∧
        (jsTruthy acctV = false →
          getProp commitAuthorV "name" = .ok authorV ∧ avatarV = .jnull) ∧
        sampleCommitOut = .obj [("sha", .str (String.mk (shaRaw.data.take 7))),
                  ("message", .str (specFirstLine80 msgRaw)),
                  ("date", dateV), ("author", authorV), ("avatar", avatarV)] ∧
        (String.mk (shaRaw.data.take 7)).length ≤ 7 ∧
        (specFirstLine80 msgRaw).length ≤ 80 ∧
        (∀ ch ∈ (specFirstLine80 msgRaw).data, ch ≠ '\n')) :=
  ⟨rfl,
   (commits_normalization_amended [sampleCommit] [sampleCommitOut]
      sampleCommit sampleCommitOut).1 rfl,
   rfl,
   (commits_normalization_amended [sampleCommit] [sampleCommitOut]
      sampleCommit sampleCommitOut).2 rfl⟩

/-! ### Claim theorems: failure fallback behavior -/

/-- C2 counterexample: on a network failure with an empty cache, the
downloads category does not leave its prior render state untouched — it
substitutes the fixed fallback total `1000000` (replacing the prior `null`)
and renders it. -/
theorem downloads_failure_fallback_cex :
    (catDownloads 0 (fun _ => .error ()) [] ApiState.initial.totalDownloads).value
      = .num 1000000 ∧
    (catDownloads 0 (fun _ => .error ()) [] ApiState.initial.totalDownloads).rendered
      = true ∧
    ApiState.initial.totalDownloads = .jnull :=
  ⟨rfl, rfl, rfl⟩

/-- C2 (amended): on a network or parse failure with no cached value, the
primary repo-stats category and the downloads category substitute their
fixed fallback values (10200/879/168/0 and 1000000) and render them; the
remaining four categories (commits, contributors, languages, latest
release) leave their prior state untouched and only log — no render. -/
theorem failure_fallback_behavior (now : Int) (store : Store) (st : ApiState)
    (hmiss : ∀ k, lookupStore store k = none) :
    catRepoStats now (.error ()) store st.repoStats
      = ⟨store, repoStatsFallback, true⟩ ∧
    catDownloads now (fun _ => .error ()) store st.totalDownloads
      = ⟨store, .num 1000000, true⟩ ∧
    catCommits now (.error ()) store st.commits = ⟨store, st.commits, false⟩ ∧
    catContributors now (.error ()) store st.contributors
      = ⟨store, st.contributors, false⟩ ∧
    catLanguages now (.error ()) store st.languages
      = ⟨store, st.languages, false⟩ ∧
    catLatestRelease now (.error ()) store st.latestRelease
      = ⟨store, st.latestRelease, false⟩ := by
  have hget : ∀ key, CacheManager.get now store key = (.jnull, store) := by
    intro key
    unfold CacheManager.get
    rw [hmiss]
  have hb1 : repoStatsBody (.error ()) = .error () := rfl
  have hb2 : downloadsBody (fun _ => .error ()) = .error () := rfl
  have hb3 : commitsBody (.error ()) = .error () := rfl
  have hb4 : contributorsBody (.error ()) = .error () := rfl
  have hb5 : languagesBody (.error ()) = .error () := rfl
  have hb6 : latestReleaseBody (.error ()) = .error () := rfl
  refine ⟨?_, ?_, ?_, ?_, ?_, ?_⟩
  · simp [catRepoStats, runCategory, hget, hb1, jsTruthy]
  · simp [catDownloads, runCategory, hget, hb2, hitNotNull]
  · simp [catCommits, runCategory, hget, hb3, jsTruthy]
  · simp [catContributors, runCategory, hget, hb4, jsTruthy]
  · simp [catLanguages, runCategory, hget, hb5, jsTruthy]
  · simp [catLatestRelease, runCategory, hget, hb6, jsTruthy]

/-- Witness for C2's amended theorem on the empty store and the initial
state: repo stats falls back and renders, commits stays `null` and does not
render. -/
theorem failure_fallback_behavior_witness :
    (∀ k, lookupStore ([] : Store) k = none) ∧
    catRepoStats 0 (.error ()) [] ApiState.initial.repoStats
      = ⟨[], repoStatsFallback, true⟩ ∧
    catCommits 0 (.error ()) [] ApiState.initial.commits
      = ⟨[], ApiState.initial.commits, false⟩ :=
  ⟨fun _ => rfl,
   (failure_fallback_behavior 0 [] ApiState.initial (fun _ => rfl)).1,
   (failure_fallback_behavior 0 [] ApiState.initial (fun _ => rfl)).2.2.1⟩

/-! ### Category isolation lemmas -/

theorem get_value_agree (now : Int) (s s' : Store) (key : String)
    (h : lookupStore s' ("die_" ++ key) = lookupStore s ("die_" ++ key)) :
    (CacheManager.get now s' key).1 = (CacheManager.get now s key).1 := by
  unfold CacheManager.get
  rw [h]
  repeat' split
  all_goals rfl

theorem get_store_lookup_ne (now : Int) (s : Store) (key x : String)
    (hx : x ≠ "die_" ++ key) :
    lookupStore (CacheManager.get now s key).2 x = lookupStore s x := by
  have hrm : lookupStore (removeKeyStore s ("die_" ++ key)) x = lookupStore s x :=
    lookup_removeKey_ne s ("die_" ++ key) x (Ne.symm hx)
  unfold CacheManager.get
  repeat' split
  all_goals first | rfl | exact hrm

theorem runCategory_frame (now : Int) (key : String) (hit : JsVal → Bool)
    (body : Except Unit JsVal) (onFail : Option JsVal) (s : Store) (field : JsVal)
    (x : String) (hx : x ≠ "die_" ++ key) :
    lookupStore (runCategory now key hit body onFail s field).store x
      = lookupStore s x := by
  unfold runCategory
  by_cases hh : hit (CacheManager.get now s key).1 = true
  · simp only [hh, if_true]
    exact get_store_lookup_ne now s key x hx
  · simp only [hh, if_false]
    cases body with
    | ok v =>
      show lookupStore (CacheManager.set now (CacheManager.get now s key).2 key v) x
          = lookupStore s x
      unfold CacheManager.set
      rw [lookup_setStore_ne _ _ _ _ (Ne.symm hx)]
      exact get_store_lookup_ne now s key x hx
    | error e =>
      cases onFail with
      | some fb => exact get_store_lookup_ne now s key x hx
      | none => exact get_store_lookup_ne now s key x hx

theorem runCategory_agree (now : Int) (key : String) (hit : JsVal → Bool)
    (body : Except Unit JsVal) (onFail : Option JsVal) (s s' : Store) (field : JsVal)
    (h : lookupStore s' ("die_" ++ key) = lookupStore s ("die_" ++ key)) :
    (runCategory now key hit body onFail s' field).value
      = (runCategory now key hit body onFail s field).value ∧
    (runCategory now key hit body onFail s' field).rendered
      = (runCategory now key hit body onFail s field).rendered := by
  have hv := get_value_agree now s s' key h
  simp only [runCategory]
  rw [hv]
  by_cases hh : hit (CacheManager.get now s key).1 = true
  · simp [hh]
  · simp only [hh, if_false]
    cases body with
    | ok v => exact ⟨rfl, rfl⟩
    | error e => cases onFail <;> exact ⟨rfl, rfl⟩

/-! ### Claim theorem: failure isolation of init -/

/-- C6: every category's outcome in `GitHubAPI.init` — the value its field
holds afterwards and whether its render function ran — equals the outcome
of running that category alone against the initial store and state.  Every
network or parsing failure of a category (including malformed-payload
structural errors thrown during normalization, which the model reflects as
`Except` errors of the category's try body) is caught inside that
category's load (the loads are total functions: the catch is the
`onFail`/skip branch of `runCategory`), so it can affect neither another
category's outcome nor prevent `init` from completing. -/
theorem init_failure_isolation (now : Int) (env : Env) (store : Store) (st : ApiState) :
    (initLoads now env store st).2.1
      = ⟨(catRepoStats now env.repoStats store st.repoStats).value,
         (catDownloads now env.downloads store st.totalDownloads).value,
         (catCommits now env.commits store st.commits).value,
         (catContributors now env.contributors store st.contributors).value,
         (catLanguages now env.languages store st.languages).value,
         (catLatestRelease now env.latestRelease store st.latestRelease).value⟩ ∧
    (initLoads now env store st).2.2
      = ⟨(catRepoStats now env.repoStats store st.repoStats).rendered,
         (catDownloads now env.downloads store st.totalDownloads).rendered,
         (catCommits now env.commits store st.commits).rendered,
         (catContributors now env.contributors store st.contributors).rendered,
         (catLanguages now env.languages store st.languages).rendered,
         (catLatestRelease now env.latestRelease store st.latestRelease).rendered⟩ := by
  set r1 := catRepoStats now env.repoStats store st.repoStats with hr1
  set r2 := catDownloads now env.downloads r1.store st.totalDownloads with hr2
  set r3 := catCommits now env.commits r2.store st.commits with hr3
  set r4 := catContributors now env.contributors r3.store st.contributors with hr4
  set r5 := catLanguages now env.languages r4.store st.languages with hr5
  have hs1 : ∀ x, x ≠ "die_" ++ "repo_stats" →
      lookupStore r1.store x = lookupStore store x :=
    fun x hx => runCategory_frame now "repo_stats" jsTruthy
      (repoStatsBody env.repoStats) (some repoStatsFallback) store st.repoStats x hx
  have hs2 : ∀ x, x ≠ "die_" ++ "total_downloads" →
      lookupStore r2.store x = lookupStore r1.store x :=
    fun x hx => runCategory_frame now "total_downloads" hitNotNull
      (downloadsBody env.downloads) (some (.num 1000000)) r1.store st.totalDownloads x hx
  have hs3 : ∀ x, x ≠ "die_" ++ "commits" →
      lookupStore r3.store x = lookupStore r2.store x :=
    fun x hx => runCategory_frame now "commits" jsTruthy
      (commitsBody env.commits) none r2.store st.commits x hx
  have hs4 : ∀ x, x ≠ "die_" ++ "contributors" →
      lookupStore r4.store x = lookupStore r3.store x :=
    fun x hx => runCategory_frame now "contributors" jsTruthy
      (contributorsBody env.contributors) none r3.store st.contributors x hx
  have hs5 : ∀ x, x ≠ "die_" ++ "languages" →
      lookupStore r5.store x = lookupStore r4.store x :=
    fun x hx => runCategory_frame now "languages" jsTruthy
      (languagesBody env.languages) none r4.store st.languages x hx
  have h2 : lookupStore r1.store ("die_" ++ "total_downloads")
      = lookupStore store ("die_" ++ "total_downloads") :=
    hs1 _ (by decide)
  have h3 : lookupStore r2.store ("die_" ++ "commits")
      = lookupStore store ("die_" ++ "commits") := by
    rw [hs2 _ (by decide), hs1 _ (by decide)]
  have h4 : lookupStore r3.store ("die_" ++ "contributors")
      = lookupStore store ("die_" ++ "contributors") := by
    rw [hs3 _ (by decide), hs2 _ (by decide), hs1 _ (by decide)]
  have h5 : lookupStore r4.store ("die_" ++ "languages")
      = lookupStore store ("die_" ++ "languages") := by
    rw [hs4 _ (by decide), hs3 _ (by decide), hs2 _ (by decide), hs1 _ (by decide)]
  have h6 : lookupStore r5.store ("die_" ++ "latest_release")
      = lookupStore store ("die_" ++ "latest_release") := by
    rw [hs5 _ (by decide), hs4 _ (by decide), hs3 _ (by decide), hs2 _ (by decide),
      hs1 _ (by decide)]
  have a2 : r2.value = (catDownloads now env.downloads store st.totalDownloads).value ∧
      r2.rendered = (catDownloads now env.downloads store st.totalDownloads).rendered :=
    runCategory_agree now "total_downloads" hitNotNull
      (downloadsBody env.downloads) (some (.num 1000000)) store r1.store
      st.totalDownloads h2
  have a3 : r3.value = (catCommits now env.commits store st.commits).value ∧
      r3.rendered = (catCommits now env.commits store st.commits).rendered :=
    runCategory_agree now "commits" jsTruthy
      (commitsBody env.commits) none store r2.store st.commits h3
  have a4 : r4.value = (catContributors now env.contributors store st.contributors).value ∧
      r4.rendered = (catContributors now env.contributors store st.contributors).rendered :=
    runCategory_agree now "contributors" jsTruthy
      (contributorsBody env.contributors) none store r3.store st.contributors h4
  have a5 : r5.value = (catLanguages now env.languages store st.languages).value ∧
      r5.rendered = (catLanguages now env.languages store st.languages).rendered :=
    runCategory_agree now "languages" jsTruthy
      (languagesBody env.languages) none store r4.store st.languages h5
  have a6 : (catLatestRelease now env.latestRelease r5.store st.latestRelease).value
        = (catLatestRelease now env.latestRelease store st.latestRelease).value ∧
      (catLatestRelease now env.latestRelease r5.store st.latestRelease).rendered
        = (catLatestRelease now env.latestRelease store st.latestRelease).rendered :=
    runCategory_agree now "latest_release" jsTruthy
      (latestReleaseBody env.latestRelease) none store r5.store st.latestRelease h6
  refine ⟨?_, ?_⟩
  · show (⟨r1.value, r2.value, r3.value, r4.value, r5.value,
      (catLatestRelease now env.latestRelease r5.store st.latestRelease).value⟩ : ApiState)
      = ⟨r1.value,
         (catDownloads now env.downloads store st.totalDownloads).value,
         (catCommits now env.commits store st.commits).value,
         (catContributors now env.contributors store st.contributors).value,
         (catLanguages now env.languages store st.languages).value,
         (catLatestRelease now env.latestRelease store st.latestRelease).value⟩
    rw [a2.1, a3.1, a4.1, a5.1, a6.1]
  · show (⟨r1.rendered, r2.rendered, r3.rendered, r4.rendered, r5.rendered,
      (catLatestRelease now env.latestRelease r5.store st.latestRelease).rendered⟩ :
        RenderFlags)
      = ⟨r1.rendered,
         (catDownloads now env.downloads store st.totalDownloads).rendered,
         (catCommits now env.commits store st.commits).rendered,
         (catContributors now env.contributors store st.contributors).rendered,
         (catLanguages now env.languages store st.languages).rendered,
         (catLatestRelease now env.latestRelease store st.latestRelease).rendered⟩
    rw [a2.2, a3.2, a4.2, a5.2, a6.2]

end DieSite
